import Mathlib

/-! # lib/html-tags.js

A shallow embedding of `lib/html-tags.js`: the tag object, the factory
`createHtmlTagObject`, the serializer `htmlTagObjectToString` and the
collection `HtmlTagArray` with its `toString`.

JavaScript strings are embedded as `String`, `undefined` as `none`, a thrown
`TypeError` as `Except.error`. The built-ins the file calls (`Object.keys`,
`Array.prototype.filter`, `map`, `concat`, `join`, `indexOf`, `||`, `+`) are
embedded with their ECMAScript meaning.
-/

namespace HtmlTags

/-! ## Data model -/

/-- The value of one attribute: `string | boolean`. -/
inductive AttrValue where
  | str (s : String)
  | bool (b : Bool)
  deriving DecidableEq, Repr

/-- An attribute mapping `{[attributeName: string]: string|boolean}`: the own
properties of the object in insertion order. A JavaScript object holds each key
once, see `WellFormed`. -/
abbrev Attributes := List (String × AttrValue)

/-- The keys of a JavaScript object are pairwise different. -/
def WellFormed (o : Attributes) : Prop := (o.map Prod.fst).Nodup

instance (o : Attributes) : Decidable (WellFormed o) := by
  unfold WellFormed; infer_instance

/-- The tag object `{tagName, voidTag, attributes, innerHTML}`. A property that
is missing (reads as `undefined`) is `none`. -/
structure HtmlTagObject where
  tagName : Option String
  voidTag : Bool
  attributes : Option Attributes
  innerHTML : Option String
  deriving DecidableEq, Repr

/-- The exceptions the code can throw. -/
inductive JsError where
  | typeError
  deriving DecidableEq, Repr

deriving instance DecidableEq for Except

/-- The values held in the arrays of this file. -/
inductive JsValue where
  | undefined
  | string (s : String)
  | tagObject (t : HtmlTagObject)
  deriving DecidableEq, Repr

/-! ## Built-ins -/

/-- A canonical numeric string: `"0"`, or digits that do not start with `0`. -/
def isCanonicalNumeric : List Char → Bool
  | [] => false
  | [c] => c.isDigit
  | c :: rest => c.isDigit && c != '0' && rest.all Char.isDigit

/-- The number written by a list of decimal digits. -/
def digitsValue (cs : List Char) : Nat :=
  cs.foldl (fun acc c => 10 * acc + (c.toNat - 48)) 0

/-- The array index a property key denotes, if it is one: a canonical numeric
string whose value is below `2^32 - 1`. -/
def arrayIndex? (key : String) : Option Nat :=
  if isCanonicalNumeric key.data && decide (digitsValue key.data < 4294967295) then
    some (digitsValue key.data)
  else
    none

/-- Insertion of an index key into a list that is ascending by index. -/
def insertIndexKey (e : Nat × String) : List (Nat × String) → List (Nat × String)
  | [] => [e]
  | f :: rest => if e.1 ≤ f.1 then e :: f :: rest else f :: insertIndexKey e rest

/-- Index keys in ascending numeric order. -/
def sortIndexKeys : List (Nat × String) → List (Nat × String)
  | [] => []
  | e :: rest => insertIndexKey e (sortIndexKeys rest)

/-- The index keys of a list of property names, each with its index. -/
def indexKeys (names : List String) : List (Nat × String) :=
  names.filterMap fun k => (arrayIndex? k).map fun n => (n, k)

/-- The own keys in the order of `Object.keys`: array indices in ascending
numeric order, then the other string keys in insertion order. -/
def objectKeys (o : Attributes) : List String :=
  (sortIndexKeys (indexKeys (o.map Prod.fst))).map Prod.snd
    ++ (o.map Prod.fst).filter fun k => (arrayIndex? k).isNone

/-- The property read `tagDefinition.attributes[attributeName]`: a `TypeError`
when `attributes` is `undefined`, else the value of the key or `undefined`. -/
def readAttribute (attributes : Option Attributes) (attributeName : String) :
    Except JsError (Option AttrValue) :=
  match attributes with
  | none => .error .typeError
  | some o => .ok (o.lookup attributeName)

/-- `Array.prototype.filter` with a callback that may throw. -/
def arrayFilter {α : Type} (f : α → Except JsError Bool) : List α → Except JsError (List α)
  | [] => .ok []
  | a :: rest =>
    match f a with
    | .error e => .error e
    | .ok keep =>
      match arrayFilter f rest with
      | .error e => .error e
      | .ok tail => .ok (if keep then a :: tail else tail)

/-- `Array.prototype.map` with a callback that may throw. -/
def arrayMap {α β : Type} (f : α → Except JsError β) : List α → Except JsError (List β)
  | [] => .ok []
  | a :: rest =>
    match f a with
    | .error e => .error e
    | .ok b =>
      match arrayMap f rest with
      | .error e => .error e
      | .ok tail => .ok (b :: tail)

/-- The string a value becomes as an operand of `+` with a string. -/
def valueToString : Option AttrValue → String
  | none => "undefined"
  | some (.str s) => s
  | some (.bool true) => "true"
  | some (.bool false) => "false"

/-- The string `tagName` becomes as an operand of `+` with a string. -/
def nameToString : Option String → String
  | none => "undefined"
  | some s => s

/-- The text `Array.prototype.join` uses for one element: empty for
`undefined`, else its `toString`. -/
def joinText : JsValue → String
  | .undefined => ""
  | .string s => s
  | .tagObject _ => "[object Object]"

/-- `Array.prototype.join`: the first element, then the separator and the next
element for each one that follows. -/
def arrayJoin (sep : String) : List JsValue → String
  | [] => ""
  | a :: rest => rest.foldl (fun r e => r ++ sep ++ joinText e) (joinText a)

/-- `Array.prototype.indexOf` from position `i`: the first position holding
`x`, or `-1`. -/
def indexOfFrom (x : String) : List String → Nat → Int
  | [], _ => -1
  | y :: rest, i => if y = x then (i : Int) else indexOfFrom x rest (i + 1)

/-- `Array.prototype.indexOf`. -/
def indexOf (xs : List String) (x : String) : Int := indexOfFrom x xs 0

/-- `innerHTML || ''`: the empty string when `innerHTML` is `undefined` or
empty. -/
def innerOrEmpty : Option String → String
  | none => ""
  | some s => if s = "" then "" else s

/-! ## The module -/

/-- All html tag elements which must not contain innerHTML. -/
def voidTags : List String :=
  ["area", "base", "br", "col", "embed", "hr", "img", "input", "keygen", "link", "meta",
    "param", "source", "track", "wbr"]

/-- The callback of `filter`: `tagDefinition.attributes[attributeName] !== false`. -/
def keepAttribute (tagDefinition : HtmlTagObject) (attributeName : String) :
    Except JsError Bool :=
  match readAttribute tagDefinition.attributes attributeName with
  | .error e => .error e
  | .ok v => .ok (v != some (.bool false))

/-- The callback of `map`: the string of one attribute. -/
def renderAttribute (tagDefinition : HtmlTagObject) (xhtml : Bool) (attributeName : String) :
    Except JsError String :=
  match readAttribute tagDefinition.attributes attributeName with
  | .error e => .error e
  | .ok v =>
    if v = some (.bool true) then
      .ok (if xhtml then attributeName ++ "=\"" ++ attributeName ++ "\"" else attributeName)
    else
      .ok (attributeName ++ "=\"" ++ valueToString v ++ "\"")

/-- The array `attributes` of `htmlTagObjectToString`: the keys of
`tagDefinition.attributes || {}`, filtered, then mapped. -/
def attributeStrings (tagDefinition : HtmlTagObject) (xhtml : Bool) :
    Except JsError (List String) :=
  match arrayFilter (keepAttribute tagDefinition)
      (objectKeys (tagDefinition.attributes.getD [])) with
  | .error e => .error e
  | .ok kept => arrayMap (renderAttribute tagDefinition xhtml) kept

/-- The return expression of `htmlTagObjectToString`. -/
def composeTag (tagDefinition : HtmlTagObject) (xhtml : Bool) (attributes : List String) :
    String :=
  "<" ++ arrayJoin " "
      ((match tagDefinition.tagName with
        | none => JsValue.undefined
        | some s => JsValue.string s) :: attributes.map JsValue.string)
    ++ (if tagDefinition.voidTag && xhtml then "/" else "") ++ ">"
    ++ innerOrEmpty tagDefinition.innerHTML
    ++ (if tagDefinition.voidTag then "" else "</" ++ nameToString tagDefinition.tagName ++ ">")

/-- Turn a tag definition into a html string. The preprocessor, when given,
replaces `tagDefinition` by its return value first. -/
def htmlTagObjectToString (tagDefinition : HtmlTagObject) (xhtml : Bool)
    (tagDefinitionPreprocessor : Option (HtmlTagObject → HtmlTagObject)) :
    Except JsError String :=
  let tagDefinition :=
    match tagDefinitionPreprocessor with
    | some f => f tagDefinition
    | none => tagDefinition
  match attributeStrings tagDefinition xhtml with
  | .error e => .error e
  | .ok attributes => .ok (composeTag tagDefinition xhtml attributes)

/-- Static helper to create a tag object: `voidTag` by `indexOf` in `voidTags`,
`attributes || {}`, `innerHTML` as given. -/
def createHtmlTagObject (tagName : String) (attributes : Option Attributes)
    (innerHTML : Option String) : HtmlTagObject :=
  { tagName := some tagName
    voidTag := indexOf voidTags tagName != -1
    attributes := some (attributes.getD [])
    innerHTML := innerHTML }

/-- The `HtmlTagArray`: an `Array` with a custom `toString`. -/
abbrev HtmlTagArray := List JsValue

/-- The method `toString` of `HtmlTagArray`: `this.join('')`. -/
def HtmlTagArray.toString (self : HtmlTagArray) : String := arrayJoin "" self

/-! ## The serializer without exceptions

The filter and the map of `htmlTagObjectToString` as total functions on the
mapping `tagDefinition.attributes || {}`; `attributeStrings_eq` shows that the
code computes them. -/

/-- The keys the filter keeps: those whose value is not `false`. -/
def keptKeys (o : Attributes) : List String :=
  (objectKeys o).filter fun k => o.lookup k != some (.bool false)

/-- The string the map gives for the key `k` of the mapping `o`. -/
def attributeText (o : Attributes) (xhtml : Bool) (k : String) : String :=
  if o.lookup k = some (.bool true) then
    (if xhtml then k ++ "=\"" ++ k ++ "\"" else k)
  else
    k ++ "=\"" ++ valueToString (o.lookup k) ++ "\""

/-- The mapping without its entries of value `false`. -/
def removeFalse (o : Attributes) : Attributes :=
  o.filter fun e => e.2 != .bool false

/-- The string of one entry `(k, v)` of the mapping, as the specification
words it: the bare key, or `k="k"` in xhtml mode, for `true`; `k="v"` for a
string `v`. Entries of value `false` are dropped before; on such an entry it
is the string the map callback would give. -/
def entryText (xhtml : Bool) (e : String × AttrValue) : String :=
  match e.2 with
  | .bool true => if xhtml then e.1 ++ "=\"" ++ e.1 ++ "\"" else e.1
  | .bool false => e.1 ++ "=\"" ++ "false" ++ "\""
  | .str v => e.1 ++ "=\"" ++ v ++ "\""

/-! ## The serializer on the heap

The tag object is a cell of the heap that the caller holds too. Here each
statement of `htmlTagObjectToString` (called without a preprocessor) is
embedded together with the cell it leaves behind, so that a write to the tag
object would show in the result. -/

/-- `Array.prototype.filter` with a callback that works on the cell. -/
def arrayFilterOnHeap {σ α : Type} (f : α → σ → Except JsError (Bool × σ)) :
    List α → σ → Except JsError (List α × σ)
  | [], h => .ok ([], h)
  | a :: rest, h =>
    match f a h with
    | .error e => .error e
    | .ok (keep, h1) =>
      match arrayFilterOnHeap f rest h1 with
      | .error e => .error e
      | .ok (tail, h2) => .ok (if keep then a :: tail else tail, h2)

/-- `Array.prototype.map` with a callback that works on the cell. -/
def arrayMapOnHeap {σ α β : Type} (f : α → σ → Except JsError (β × σ)) :
    List α → σ → Except JsError (List β × σ)
  | [], h => .ok ([], h)
  | a :: rest, h =>
    match f a h with
    | .error e => .error e
    | .ok (b, h1) =>
      match arrayMapOnHeap f rest h1 with
      | .error e => .error e
      | .ok (tail, h2) => .ok (b :: tail, h2)

/-- The callback of `filter` on the cell: it reads `attributes[attributeName]`
and writes nothing. -/
def keepAttributeOnHeap (attributeName : String) (cell : HtmlTagObject) :
    Except JsError (Bool × HtmlTagObject) :=
  match readAttribute cell.attributes attributeName with
  | .error e => .error e
  | .ok v => .ok (v != some (.bool false), cell)

/-- The callback of `map` on the cell: it reads `attributes[attributeName]` and
writes nothing. -/
def renderAttributeOnHeap (xhtml : Bool) (attributeName : String) (cell : HtmlTagObject) :
    Except JsError (String × HtmlTagObject) :=
  match readAttribute cell.attributes attributeName with
  | .error e => .error e
  | .ok v =>
    if v = some (.bool true) then
      .ok (if xhtml then attributeName ++ "=\"" ++ attributeName ++ "\"" else attributeName,
        cell)
    else
      .ok (attributeName ++ "=\"" ++ valueToString v ++ "\"", cell)

/-- The call `htmlTagObjectToString(tagDefinition, xhtml)` on the cell: the
string returned and the tag object as the call leaves it. -/
def htmlTagObjectToStringOnHeap (cell : HtmlTagObject) (xhtml : Bool) :
    Except JsError (String × HtmlTagObject) :=
  match arrayFilterOnHeap keepAttributeOnHeap (objectKeys (cell.attributes.getD [])) cell with
  | .error e => .error e
  | .ok (kept, cell1) =>
    match arrayMapOnHeap (renderAttributeOnHeap xhtml) kept cell1 with
    | .error e => .error e
    | .ok (attributes, cell2) => .ok (composeTag cell2 xhtml attributes, cell2)

/-- Two calls one after the other on the same cell: both strings and the tag
object after the second call. -/
def htmlTagObjectToStringTwice (cell : HtmlTagObject) (xhtml : Bool) :
    Except JsError (String × String × HtmlTagObject) :=
  match htmlTagObjectToStringOnHeap cell xhtml with
  | .error e => .error e
  | .ok (first, cell1) =>
    match htmlTagObjectToStringOnHeap cell1 xhtml with
    | .error e => .error e
    | .ok (second, cell2) => .ok (first, second, cell2)

/-! ## Lemmas on the built-ins -/

theorem arrayFilter_eq_filter {α : Type} (f : α → Except JsError Bool) (p : α → Bool)
    (l : List α) (h : ∀ a ∈ l, f a = .ok (p a)) : arrayFilter f l = .ok (l.filter p) := by
  induction l with
  | nil => rfl
  | cons a rest ih =>
    have ha : f a = .ok (p a) := h a (List.mem_cons_self a rest)
    have hr : arrayFilter f rest = .ok (rest.filter p) :=
      ih fun b hb => h b (List.mem_cons_of_mem a hb)
    simp only [arrayFilter, ha, hr, List.filter_cons]

theorem arrayMap_eq_map {α β : Type} (f : α → Except JsError β) (g : α → β)
    (l : List α) (h : ∀ a ∈ l, f a = .ok (g a)) : arrayMap f l = .ok (l.map g) := by
  induction l with
  | nil => rfl
  | cons a rest ih =>
    have ha : f a = .ok (g a) := h a (List.mem_cons_self a rest)
    have hr : arrayMap f rest = .ok (rest.map g) :=
      ih fun b hb => h b (List.mem_cons_of_mem a hb)
    simp only [arrayMap, ha, hr, List.map_cons]

theorem foldl_join_strings (sep init : String) (l : List String) :
    (l.map JsValue.string).foldl (fun r e => r ++ sep ++ joinText e) init
      = init ++ String.join (l.map fun a => sep ++ a) := by
  induction l generalizing init with
  | nil => apply String.ext; simp
  | cons a rest ih =>
    rw [List.map_cons, List.foldl_cons, ih]
    apply String.ext
    simp [String.data_append, String.data_join, joinText]

theorem arrayJoin_cons_strings (sep : String) (a : JsValue) (l : List String) :
    arrayJoin sep (a :: l.map JsValue.string)
      = joinText a ++ String.join (l.map fun s => sep ++ s) := by
  simp only [arrayJoin, foldl_join_strings]

theorem arrayJoin_empty_sep (l : List String) :
    arrayJoin "" (l.map JsValue.string) = String.join l := by
  cases l with
  | nil => rfl
  | cons a rest =>
    rw [List.map_cons, arrayJoin_cons_strings]
    apply String.ext
    simp [String.data_append, String.data_join, joinText]

theorem innerOrEmpty_eq (inner : Option String) : innerOrEmpty inner = inner.getD "" := by
  cases inner with
  | none => rfl
  | some s =>
    by_cases h : s = ""
    · simp [innerOrEmpty, h]
    · simp [innerOrEmpty, h]

theorem indexOfFrom_nonneg (x : String) (l : List String) (i : Nat) :
    indexOfFrom x l i = -1 ∨ (i : Int) ≤ indexOfFrom x l i := by
  induction l generalizing i with
  | nil => left; rfl
  | cons y rest ih =>
    by_cases h : y = x
    · right; simp [indexOfFrom, h]
    · simp only [indexOfFrom, h, if_false]
      rcases ih (i + 1) with h1 | h1
      · left; exact h1
      · right; omega

theorem indexOfFrom_ne_iff (x : String) (l : List String) (i : Nat) :
    indexOfFrom x l i ≠ -1 ↔ x ∈ l := by
  induction l generalizing i with
  | nil => simp [indexOfFrom]
  | cons y rest ih =>
    by_cases h : y = x
    · subst h
      simp only [indexOfFrom, if_true, List.mem_cons, true_or, iff_true]
      omega
    · have h2 : ¬ x = y := fun e => h e.symm
      simp only [indexOfFrom, h, if_false, List.mem_cons, h2, false_or]
      exact ih (i + 1)

end HtmlTags

namespace HtmlTags

/-! ## Lemmas on `Object.keys` -/

theorem mem_insertIndexKey (x e : Nat × String) (l : List (Nat × String)) :
    x ∈ insertIndexKey e l ↔ x = e ∨ x ∈ l := by
  induction l with
  | nil => simp [insertIndexKey]
  | cons f rest ih =>
    by_cases h : e.1 ≤ f.1
    · simp [insertIndexKey, h]
    · simp only [insertIndexKey, h, if_false, List.mem_cons, ih]
      tauto

theorem mem_sortIndexKeys (x : Nat × String) (l : List (Nat × String)) :
    x ∈ sortIndexKeys l ↔ x ∈ l := by
  induction l with
  | nil => simp [sortIndexKeys]
  | cons e rest ih => simp [sortIndexKeys, mem_insertIndexKey, ih]

theorem pairwise_insertIndexKey (e : Nat × String) (l : List (Nat × String))
    (h : l.Pairwise fun a b => a.1 ≤ b.1) :
    (insertIndexKey e l).Pairwise fun a b => a.1 ≤ b.1 := by
  induction l with
  | nil => simp [insertIndexKey]
  | cons f rest ih =>
    rw [List.pairwise_cons] at h
    by_cases hef : e.1 ≤ f.1
    · simp only [insertIndexKey, hef, if_true]
      refine List.pairwise_cons.2 ⟨?_, List.pairwise_cons.2 h⟩
      intro b hb
      rcases List.mem_cons.1 hb with hb | hb
      · rw [hb]; exact hef
      · exact Nat.le_trans hef (h.1 b hb)
    · simp only [insertIndexKey, hef, if_false]
      refine List.pairwise_cons.2 ⟨?_, ih h.2⟩
      intro b hb
      rcases (mem_insertIndexKey b e rest).1 hb with hb | hb
      · rw [hb]; omega
      · exact h.1 b hb

theorem pairwise_sortIndexKeys (l : List (Nat × String)) :
    (sortIndexKeys l).Pairwise fun a b => a.1 ≤ b.1 := by
  induction l with
  | nil => simp [sortIndexKeys]
  | cons e rest ih => exact pairwise_insertIndexKey e _ ih

theorem insertIndexKey_of_le (e : Nat × String) (l : List (Nat × String))
    (h : ∀ b ∈ l, e.1 ≤ b.1) : insertIndexKey e l = e :: l := by
  cases l with
  | nil => rfl
  | cons f rest => simp [insertIndexKey, h f (List.mem_cons_self f rest)]

theorem filter_insertIndexKey (p : Nat × String → Bool) (e : Nat × String)
    (l : List (Nat × String)) (h : l.Pairwise fun a b => a.1 ≤ b.1) :
    (insertIndexKey e l).filter p
      = if p e then insertIndexKey e (l.filter p) else l.filter p := by
  induction l with
  | nil => cases hp : p e <;> simp [insertIndexKey, hp]
  | cons f rest ih =>
    rw [List.pairwise_cons] at h
    by_cases hef : e.1 ≤ f.1
    · have hle : ∀ b ∈ (f :: rest).filter p, e.1 ≤ b.1 := by
        intro b hb
        rcases List.mem_cons.1 (List.mem_filter.1 hb).1 with hb | hb
        · rw [hb]; exact hef
        · exact Nat.le_trans hef (h.1 b hb)
      rw [insertIndexKey_of_le e _ hle]
      simp only [insertIndexKey, hef, if_true]
      cases hp : p e <;> simp [List.filter_cons, hp]
    · simp only [insertIndexKey, hef, if_false]
      rw [List.filter_cons, ih h.2]
      cases hpf : p f <;> cases hp : p e <;>
        simp [List.filter_cons, hpf, insertIndexKey, hef]

theorem filter_sortIndexKeys (p : Nat × String → Bool) (l : List (Nat × String)) :
    (sortIndexKeys l).filter p = sortIndexKeys (l.filter p) := by
  induction l with
  | nil => rfl
  | cons e rest ih =>
    simp only [sortIndexKeys]
    rw [filter_insertIndexKey p e _ (pairwise_sortIndexKeys rest), ih]
    cases hp : p e <;> simp [List.filter_cons, hp, sortIndexKeys]

end HtmlTags

namespace HtmlTags

theorem mem_indexKeys (x : Nat × String) (names : List String) :
    x ∈ indexKeys names ↔ x.2 ∈ names ∧ arrayIndex? x.2 = some x.1 := by
  obtain ⟨n, k⟩ := x
  simp only [indexKeys, List.mem_filterMap, Option.map_eq_some', Prod.mk.injEq]
  constructor
  · rintro ⟨a, ha, m, hm, rfl, rfl⟩
    exact ⟨ha, hm⟩
  · rintro ⟨hk, hn⟩
    exact ⟨k, hk, n, hn, rfl, rfl⟩

theorem mem_objectKeys (k : String) (o : Attributes) :
    k ∈ objectKeys o ↔ k ∈ o.map Prod.fst := by
  simp only [objectKeys, List.mem_append, List.mem_map, List.mem_filter, mem_sortIndexKeys,
    mem_indexKeys]
  constructor
  · rintro (⟨⟨n, a⟩, ⟨⟨e, he, hea⟩, _⟩, rfl⟩ | ⟨h, _⟩)
    · exact ⟨e, he, hea⟩
    · exact h
  · rintro ⟨e, he, rfl⟩
    cases hi : arrayIndex? e.1 with
    | none => right; exact ⟨⟨e, he, rfl⟩, by simp⟩
    | some n => left; exact ⟨(n, e.1), ⟨⟨e, he, rfl⟩, hi⟩, rfl⟩

theorem filter_indexKeys (q : String → Bool) (names : List String) :
    (indexKeys names).filter (fun x => q x.2) = indexKeys (names.filter q) := by
  induction names with
  | nil => rfl
  | cons k rest ih =>
    simp only [indexKeys] at ih ⊢
    cases hi : arrayIndex? k with
    | none =>
      cases hq : q k <;> simp [List.filterMap_cons, List.filter_cons, hi, hq, ih]
    | some n =>
      cases hq : q k <;> simp [List.filterMap_cons, List.filter_cons, hi, hq, ih]

/-- Filtering the keys of an object is taking the keys of the filtered object:
`Object.keys` keeps the relative order of the keys that stay. -/
theorem filter_objectKeys (q : String → Bool) (o : Attributes) :
    (objectKeys o).filter q = objectKeys (o.filter fun e => q e.1) := by
  have hmap : (o.filter fun e => q e.1).map Prod.fst = (o.map Prod.fst).filter q := by
    rw [List.filter_map]; rfl
  simp only [objectKeys, List.filter_append, hmap]
  congr 1
  · rw [List.filter_map]
    have : (q ∘ Prod.snd : Nat × String → Bool) = fun x => q x.2 := rfl
    rw [this, filter_sortIndexKeys, filter_indexKeys]
  · rw [List.filter_filter, List.filter_filter]
    congr 1
    funext k
    exact Bool.and_comm _ _

end HtmlTags

namespace HtmlTags

/-! ## The serializer computes the total functions -/

theorem keepAttribute_some (t : HtmlTagObject) (o : Attributes) (k : String)
    (h : t.attributes = some o) :
    keepAttribute t k = .ok (o.lookup k != some (.bool false)) := by
  simp only [keepAttribute, readAttribute, h]

theorem renderAttribute_some (t : HtmlTagObject) (x : Bool) (o : Attributes) (k : String)
    (h : t.attributes = some o) :
    renderAttribute t x k = .ok (attributeText o x k) := by
  simp only [renderAttribute, readAttribute, h, attributeText]
  split <;> rfl

theorem arrayFilter_keepAttribute (t : HtmlTagObject) :
    arrayFilter (keepAttribute t) (objectKeys (t.attributes.getD []))
      = .ok (keptKeys (t.attributes.getD [])) := by
  cases h : t.attributes with
  | none => rfl
  | some o =>
    exact arrayFilter_eq_filter _ _ _ fun k _ => keepAttribute_some t o k h

theorem attributeStrings_eq (t : HtmlTagObject) (x : Bool) :
    attributeStrings t x
      = .ok ((keptKeys (t.attributes.getD [])).map
          (attributeText (t.attributes.getD []) x)) := by
  simp only [attributeStrings, arrayFilter_keepAttribute]
  cases h : t.attributes with
  | none => rfl
  | some o =>
    exact arrayMap_eq_map _ _ _ fun k _ => renderAttribute_some t x o k h

theorem htmlTagObjectToString_eq (t : HtmlTagObject) (x : Bool) :
    htmlTagObjectToString t x none
      = .ok (composeTag t x ((keptKeys (t.attributes.getD [])).map
          (attributeText (t.attributes.getD []) x))) := by
  simp only [htmlTagObjectToString, attributeStrings_eq]

theorem composeTag_eq (t : HtmlTagObject) (x : Bool) (strs : List String) :
    composeTag t x strs
      = "<" ++ (t.tagName.getD "" ++ String.join (strs.map fun a => " " ++ a))
        ++ (if t.voidTag && x then "/" else "") ++ ">" ++ t.innerHTML.getD ""
        ++ (if t.voidTag then "" else "</" ++ nameToString t.tagName ++ ">") := by
  simp only [composeTag, arrayJoin_cons_strings, innerOrEmpty_eq]
  cases t.tagName <;> rfl

/-! ## Lemmas on the lookup of a key -/

theorem lookup_removeFalse (o : Attributes) (k : String)
    (h : o.lookup k ≠ some (.bool false)) : (removeFalse o).lookup k = o.lookup k := by
  induction o with
  | nil => rfl
  | cons e rest ih =>
    obtain ⟨a, v⟩ := e
    by_cases hak : k = a
    · subst hak
      have hv : v ≠ .bool false := by
        intro hv; apply h; simp [List.lookup, hv]
      simp [removeFalse, List.filter_cons, hv, List.lookup]
    · have hbeq : (k == a) = false := by simpa using hak
      have hrest : rest.lookup k ≠ some (.bool false) := by
        simpa [List.lookup, hbeq] using h
      have ih2 := ih hrest
      simp only [removeFalse] at ih2
      by_cases hv : v = .bool false
      · simp [removeFalse, List.filter_cons, hv, List.lookup, hbeq, ih2]
      · simp [removeFalse, List.filter_cons, hv, List.lookup, hbeq, ih2]

theorem lookup_of_all (P : AttrValue → Prop) (o : Attributes) (k : String)
    (h : ∀ e ∈ o, P e.2) (hk : k ∈ o.map Prod.fst) : ∃ v, o.lookup k = some v ∧ P v := by
  induction o with
  | nil => simp at hk
  | cons e rest ih =>
    obtain ⟨a, v⟩ := e
    by_cases hak : k = a
    · subst hak
      exact ⟨v, by simp [List.lookup], h _ (List.mem_cons_self _ _)⟩
    · have hbeq : (k == a) = false := by simpa using hak
      have hk2 : k ∈ rest.map Prod.fst := by
        simpa [hak] using hk
      obtain ⟨w, hw, hP⟩ := ih (fun e he => h e (List.mem_cons_of_mem _ he)) hk2
      exact ⟨w, by simpa [List.lookup, hbeq] using hw, hP⟩

theorem lookup_of_mem (o : Attributes) (h : WellFormed o) (e : String × AttrValue)
    (he : e ∈ o) : o.lookup e.1 = some e.2 := by
  induction o with
  | nil => simp at he
  | cons f rest ih =>
    obtain ⟨a, v⟩ := f
    simp only [WellFormed, List.map_cons, List.nodup_cons] at h
    rcases List.mem_cons.1 he with he | he
    · subst he; simp [List.lookup]
    · have hne : e.1 ≠ a := by
        intro hea
        exact h.1 (hea ▸ List.mem_map_of_mem Prod.fst he)
      have hbeq : (e.1 == a) = false := by simpa using hne
      simpa [List.lookup, hbeq] using ih h.2 he

end HtmlTags

namespace HtmlTags

/-! ## The claims -/

/-- C1: for a tag object that is not void (with a tag name, any attribute
mapping or none, any inner content or none) and either xhtml flag, without a
preprocessor, the serializer returns `<` + tagName + each string of its array
`attributes` preceded by one space, in the order of that array, + `>` + the
inner content (empty when absent) + `</` + tagName + `>`; no `/` comes before
`>`. The usage example of the file renders as `<h1 class="demo">Hello World</h1>`. -/
theorem nonvoid_tag_format :
    (∀ (tagName : String) (attributes : Option Attributes) (innerHTML : Option String)
        (xhtml : Bool),
      ∃ strs : List String,
        attributeStrings ⟨some tagName, false, attributes, innerHTML⟩ xhtml = .ok strs ∧
        htmlTagObjectToString ⟨some tagName, false, attributes, innerHTML⟩ xhtml none
          = .ok ("<" ++ tagName ++ String.join (strs.map fun a => " " ++ a) ++ ">"
              ++ innerHTML.getD "" ++ "</" ++ tagName ++ ">")) ∧
    htmlTagObjectToString
        (createHtmlTagObject "h1" (some [("class", .str "demo")]) (some "Hello World"))
        false none
      = .ok "<h1 class=\"demo\">Hello World</h1>" := by
  refine ⟨?_, by decide⟩
  intro tagName attributes innerHTML xhtml
  refine ⟨_, attributeStrings_eq _ _, ?_⟩
  rw [htmlTagObjectToString_eq, composeTag_eq]
  simp [nameToString, String.append_assoc]

/-- C2: for a void tag object whose inner content is absent or the empty
string, the serializer returns the opening tag alone: `<` + tagName + the
attribute strings each preceded by one space + `>` when xhtml is false, and
the same with `/>` when xhtml is true. `createHtmlTagObject('img', {src:
'a.png'})` renders in xhtml mode as `<img src="a.png"/>`. -/
theorem void_tag_format :
    (∀ (tagName : String) (attributes : Option Attributes) (innerHTML : Option String)
        (xhtml : Bool), innerHTML = none ∨ innerHTML = some "" →
      ∃ strs : List String,
        attributeStrings ⟨some tagName, true, attributes, innerHTML⟩ xhtml = .ok strs ∧
        htmlTagObjectToString ⟨some tagName, true, attributes, innerHTML⟩ xhtml none
          = .ok ("<" ++ tagName ++ String.join (strs.map fun a => " " ++ a)
              ++ (if xhtml then "/>" else ">"))) ∧
    htmlTagObjectToString (createHtmlTagObject "img" (some [("src", .str "a.png")]) none)
        true none
      = .ok "<img src=\"a.png\"/>" := by
  refine ⟨?_, by decide⟩
  intro tagName attributes innerHTML xhtml hinner
  refine ⟨_, attributeStrings_eq _ _, ?_⟩
  rw [htmlTagObjectToString_eq, composeTag_eq]
  rcases hinner with h | h <;> subst h <;> cases xhtml <;>
    simp [String.append_assoc]

/-- Witness of C2: the void tag `br` with the attribute `id="a"` and an empty
inner content, in xhtml mode. -/
theorem void_tag_format_witness :
    ((some "" : Option String) = none ∨ (some "" : Option String) = some "") ∧
    ∃ strs : List String,
      attributeStrings ⟨some "br", true, some [("id", .str "a")], some ""⟩ true = .ok strs ∧
      htmlTagObjectToString ⟨some "br", true, some [("id", .str "a")], some ""⟩ true none
        = .ok ("<" ++ "br" ++ String.join (strs.map fun a => " " ++ a)
            ++ (if true then "/>" else ">")) :=
  ⟨Or.inr rfl, void_tag_format.1 "br" (some [("id", .str "a")]) (some "") true (Or.inr rfl)⟩

/-- C3, evaluated on the code: a void tag object that carries a non-empty
`innerHTML` is rendered with that content after the opening tag, so the output
differs from the output of the same tag object without `innerHTML`: for every
void tag object the output is the output without `innerHTML` followed by the
`innerHTML` given, and `createHtmlTagObject('br', undefined, 'x')` renders as
`<br>x`, not as `<br>`. -/
theorem void_tag_emits_innerHTML :
    (∀ (tagName : String) (attributes : Option Attributes) (xhtml : Bool) (s : String),
      ∃ out : String,
        htmlTagObjectToString ⟨some tagName, true, attributes, none⟩ xhtml none = .ok out ∧
        htmlTagObjectToString ⟨some tagName, true, attributes, some s⟩ xhtml none
          = .ok (out ++ s)) ∧
    htmlTagObjectToString (createHtmlTagObject "br" none (some "x")) false none
      = .ok "<br>x" ∧
    htmlTagObjectToString (createHtmlTagObject "br" none none) false none = .ok "<br>" ∧
    htmlTagObjectToString (createHtmlTagObject "br" none (some "x")) false none
      ≠ htmlTagObjectToString (createHtmlTagObject "br" none none) false none := by
  refine ⟨?_, by decide, by decide, by decide⟩
  intro tagName attributes xhtml s
  refine ⟨_, htmlTagObjectToString_eq _ _, ?_⟩
  rw [htmlTagObjectToString_eq, composeTag_eq, composeTag_eq]
  simp [String.append_assoc]

/-- C4: the tag object that `createHtmlTagObject` builds has `voidTag` true if
and only if the tag name is, character for character, one of the 15 names
area, base, br, col, embed, hr, img, input, keygen, link, meta, param, source,
track, wbr; so it is false for the empty string, for `BR` and for `div`. -/
theorem createHtmlTagObject_voidTag :
    (∀ (tagName : String) (attributes : Option Attributes) (innerHTML : Option String),
      (createHtmlTagObject tagName attributes innerHTML).voidTag = true ↔
        tagName ∈ ["area", "base", "br", "col", "embed", "hr", "img", "input", "keygen",
          "link", "meta", "param", "source", "track", "wbr"]) ∧
    (createHtmlTagObject "" none none).voidTag = false ∧
    (createHtmlTagObject "BR" none none).voidTag = false ∧
    (createHtmlTagObject "div" none none).voidTag = false := by
  refine ⟨?_, by decide, by decide, by decide⟩
  intro tagName attributes innerHTML
  simp only [createHtmlTagObject, indexOf, bne_iff_ne]
  exact indexOfFrom_ne_iff tagName voidTags 0

end HtmlTags

namespace HtmlTags

theorem mem_keys_of_lookup (o : Attributes) (k : String) (v : AttrValue)
    (h : o.lookup k = some v) : k ∈ o.map Prod.fst := by
  induction o with
  | nil => simp [List.lookup] at h
  | cons e rest ih =>
    obtain ⟨a, w⟩ := e
    by_cases hak : k = a
    · simp [hak]
    · have hbeq : (k == a) = false := by simpa using hak
      have h2 : rest.lookup k = some v := by simpa [List.lookup, hbeq] using h
      simpa [hak] using ih h2

theorem bne_some_some (a b : AttrValue) : (a != b) = (some a != some b) := by
  by_cases h : a = b
  · simp [h]
  · have h1 : (a != b) = true := by simpa using h
    have h2 : (some a != some b) = true := by
      rw [bne_iff_ne]; intro e; exact h (Option.some.inj e)
    rw [h1, h2]

theorem objectKeys_removeFalse (o : Attributes) (h : WellFormed o) :
    objectKeys (removeFalse o) = keptKeys o := by
  rw [keptKeys, filter_objectKeys, removeFalse]
  congr 1
  apply List.filter_congr
  intro e he
  rw [lookup_of_mem o h e he]
  exact bne_some_some _ _

theorem keptKeys_removeFalse (o : Attributes) :
    keptKeys (removeFalse o) = objectKeys (removeFalse o) := by
  rw [keptKeys, List.filter_eq_self]
  intro k hk
  have hall : ∀ e ∈ removeFalse o, e.2 ≠ .bool false := by
    intro e he
    simpa using (List.mem_filter.1 he).2
  obtain ⟨v, hv, hP⟩ :=
    lookup_of_all (fun v => v ≠ .bool false) (removeFalse o) k hall
      ((mem_objectKeys k _).1 hk)
  simp [hv, hP]

theorem attributeTexts_removeFalse (o : Attributes) (h : WellFormed o) (x : Bool) :
    (keptKeys (removeFalse o)).map (attributeText (removeFalse o) x)
      = (keptKeys o).map (attributeText o x) := by
  rw [keptKeys_removeFalse, objectKeys_removeFalse o h]
  apply List.map_congr_left
  intro k hk
  have hne : o.lookup k ≠ some (.bool false) := by
    simpa [keptKeys] using (List.mem_filter.1 hk).2
  simp only [attributeText, lookup_removeFalse o k hne]

theorem keptKeys_all_false (o : Attributes) (h : ∀ e ∈ o, e.2 = .bool false) :
    keptKeys o = [] := by
  rw [keptKeys, List.filter_eq_nil_iff]
  intro k hk
  obtain ⟨v, hv, hP⟩ :=
    lookup_of_all (fun v => v = .bool false) o k h ((mem_objectKeys k _).1 hk)
  simp [hv, hP]

/-- C5, the claim as stated fails: `createHtmlTagObject('br', {hidden: false})`
has only `false` attributes, and in xhtml mode it renders as `<br/>`: the
opening tag is not `<` + tagName + `>`, and the output does not start with
`<br>`. -/
theorem all_false_void_xhtml_counterexample :
    (createHtmlTagObject "br" (some [("hidden", .bool false)]) none).voidTag = true ∧
    (∀ e ∈ ([("hidden", .bool false)] : Attributes), e.2 = .bool false) ∧
    htmlTagObjectToString (createHtmlTagObject "br" (some [("hidden", .bool false)]) none)
        true none
      = .ok "<br/>" ∧
    htmlTagObjectToString (createHtmlTagObject "br" (some [("hidden", .bool false)]) none)
        true none
      ≠ .ok "<br>" ∧
    ∀ rest : String, "<br/>" ≠ "<" ++ "br" ++ ">" ++ rest := by
  refine ⟨by decide, by decide, by decide, by decide, ?_⟩
  intro rest h
  have hd := congrArg String.data h
  simp [String.data_append] at hd

/-- C5, amended: an attribute whose value is `false` contributes nothing: for
every tag object whose attribute mapping holds each key once, and either xhtml
flag, the serializer returns what it returns for the same tag object with the
entries of value `false` removed. A tag object whose attributes are all
`false` has no space after the tag name: its opening tag is `<` + tagName +
`>`, except for a void tag in xhtml mode, where it is `<` + tagName + `/>`. -/
theorem false_attributes_dropped :
    (∀ (t : HtmlTagObject) (xhtml : Bool),
      (∀ o, t.attributes = some o → WellFormed o) →
      htmlTagObjectToString t xhtml none
        = htmlTagObjectToString { t with attributes := t.attributes.map removeFalse }
            xhtml none) ∧
    (∀ (tagName : String) (voidTag : Bool) (o : Attributes) (innerHTML : Option String)
        (xhtml : Bool), (∀ e ∈ o, e.2 = .bool false) →
      htmlTagObjectToString ⟨some tagName, voidTag, some o, innerHTML⟩ xhtml none
        = .ok ("<" ++ tagName ++ (if voidTag && xhtml then "/" else "") ++ ">"
            ++ innerHTML.getD "" ++ (if voidTag then "" else "</" ++ tagName ++ ">"))) ∧
    (∀ (tagName : String) (voidTag : Bool) (o : Attributes) (innerHTML : Option String)
        (xhtml : Bool), (∀ e ∈ o, e.2 = .bool false) → (voidTag && xhtml) = false →
      htmlTagObjectToString ⟨some tagName, voidTag, some o, innerHTML⟩ xhtml none
        = .ok ("<" ++ tagName ++ ">"
            ++ innerHTML.getD "" ++ (if voidTag then "" else "</" ++ tagName ++ ">"))) ∧
    (∀ (tagName : String) (o : Attributes) (innerHTML : Option String),
      (∀ e ∈ o, e.2 = .bool false) →
      htmlTagObjectToString ⟨some tagName, true, some o, innerHTML⟩ true none
        = .ok ("<" ++ tagName ++ "/>" ++ innerHTML.getD "")) := by
  have hjoin : String.join [] = "" := rfl
  refine ⟨?_, ?_, ?_, ?_⟩
  · intro t xhtml h
    rw [htmlTagObjectToString_eq, htmlTagObjectToString_eq]
    obtain ⟨name, void, attrs, inner⟩ := t
    cases attrs with
    | none => rfl
    | some o =>
      simp only [Option.map_some', Option.getD_some]
      rw [attributeTexts_removeFalse o (h o rfl) xhtml]
      rfl
  · intro tagName voidTag o innerHTML xhtml h
    rw [htmlTagObjectToString_eq, composeTag_eq]
    simp [keptKeys_all_false o h, nameToString, String.append_assoc, hjoin]
  · intro tagName voidTag o innerHTML xhtml h hvx
    rw [htmlTagObjectToString_eq, composeTag_eq]
    simp only [hvx]
    simp [keptKeys_all_false o h, nameToString, String.append_assoc, hjoin]
  · intro tagName o innerHTML h
    rw [htmlTagObjectToString_eq, composeTag_eq]
    simp [keptKeys_all_false o h, String.append_assoc, hjoin]

/-- Witness of C5: `createHtmlTagObject('div', {hidden: false, class: 'x'})`
renders as `<div class="x"></div>`, the rendering of the tag object without
`hidden`; `p` with `{hidden: false}` renders as `<p></p>`; the void tag `br`
with `{hidden: false}` renders as `<br>`, and in xhtml mode as `<br/>`. -/
theorem false_attributes_dropped_witness :
    (∀ o, (createHtmlTagObject "div" (some [("hidden", .bool false), ("class", .str "x")])
        none).attributes = some o → WellFormed o) ∧
    htmlTagObjectToString
        (createHtmlTagObject "div" (some [("hidden", .bool false), ("class", .str "x")]) none)
        false none
      = htmlTagObjectToString
          { createHtmlTagObject "div" (some [("hidden", .bool false), ("class", .str "x")])
              none with
            attributes := (createHtmlTagObject "div"
              (some [("hidden", .bool false), ("class", .str "x")]) none).attributes.map
                removeFalse }
          false none ∧
    htmlTagObjectToString
        (createHtmlTagObject "div" (some [("hidden", .bool false), ("class", .str "x")]) none)
        false none
      = .ok "<div class=\"x\"></div>" ∧
    htmlTagObjectToString (createHtmlTagObject "div" (some [("class", .str "x")]) none)
        false none
      = .ok "<div class=\"x\"></div>" ∧
    (∀ o, (createHtmlTagObject "br" (some [("hidden", .bool false), ("id", .str "a")])
        none).attributes = some o → WellFormed o) ∧
    htmlTagObjectToString
        (createHtmlTagObject "br" (some [("hidden", .bool false), ("id", .str "a")]) none)
        true none
      = htmlTagObjectToString
          { createHtmlTagObject "br" (some [("hidden", .bool false), ("id", .str "a")])
              none with
            attributes := (createHtmlTagObject "br"
              (some [("hidden", .bool false), ("id", .str "a")]) none).attributes.map
                removeFalse }
          true none ∧
    htmlTagObjectToString
        (createHtmlTagObject "br" (some [("hidden", .bool false), ("id", .str "a")]) none)
        true none
      = .ok "<br id=\"a\"/>" ∧
    (∀ e ∈ ([("hidden", .bool false)] : Attributes), e.2 = .bool false) ∧
    htmlTagObjectToString ⟨some "p", false, some [("hidden", .bool false)], none⟩ false none
      = .ok "<p></p>" ∧
    htmlTagObjectToString ⟨some "p", false, some [("hidden", .bool false)], none⟩ true none
      = .ok "<p></p>" ∧
    htmlTagObjectToString ⟨some "br", true, some [("hidden", .bool false)], none⟩ false none
      = .ok "<br>" ∧
    htmlTagObjectToString ⟨some "br", true, some [("hidden", .bool false)], none⟩ true none
      = .ok "<br/>" :=
  have hwf : ∀ o, (createHtmlTagObject "div"
      (some [("hidden", .bool false), ("class", .str "x")]) none).attributes = some o →
      WellFormed o := by
    intro o ho
    cases ho
    decide
  have hwf2 : ∀ o, (createHtmlTagObject "br"
      (some [("hidden", .bool false), ("id", .str "a")]) none).attributes = some o →
      WellFormed o := by
    intro o ho
    cases ho
    decide
  have hall : ∀ e ∈ ([("hidden", .bool false)] : Attributes), e.2 = .bool false := by
    intro e he
    rw [List.mem_singleton.1 he]
  ⟨hwf, false_attributes_dropped.1 _ false hwf, by decide, by decide,
    hwf2, false_attributes_dropped.1 _ true hwf2, by decide, hall,
    false_attributes_dropped.2.1 "p" false [("hidden", .bool false)] none false hall,
    false_attributes_dropped.2.2.1 "p" false [("hidden", .bool false)] none true hall rfl,
    false_attributes_dropped.2.2.1 "br" true [("hidden", .bool false)] none false hall rfl,
    false_attributes_dropped.2.2.2 "br" [("hidden", .bool false)] none hall⟩

/-- C6: for a tag object whose attribute mapping gives the key `k` the value
`true`, the filter keeps `k`, and the attribute string the serializer emits
for `k` is the bare key `k` when xhtml is false and `k="k"` when xhtml is
true; that string is in the array of attribute strings.
`createHtmlTagObject('input', {disabled: true})` renders as `<input disabled>`,
and in xhtml mode as `<input disabled="disabled"/>`. -/
theorem true_attribute_string :
    (∀ (t : HtmlTagObject) (xhtml : Bool) (o : Attributes) (k : String),
      t.attributes = some o → o.lookup k = some (.bool true) →
      (∃ kept, arrayFilter (keepAttribute t) (objectKeys (t.attributes.getD [])) = .ok kept ∧
        k ∈ kept) ∧
      renderAttribute t xhtml k = .ok (if xhtml then k ++ "=\"" ++ k ++ "\"" else k) ∧
      ∃ strs, attributeStrings t xhtml = .ok strs ∧
        (if xhtml then k ++ "=\"" ++ k ++ "\"" else k) ∈ strs) ∧
    htmlTagObjectToString (createHtmlTagObject "input" (some [("disabled", .bool true)]) none)
        false none
      = .ok "<input disabled>" ∧
    htmlTagObjectToString (createHtmlTagObject "input" (some [("disabled", .bool true)]) none)
        true none
      = .ok "<input disabled=\"disabled\"/>" := by
  refine ⟨?_, by decide, by decide⟩
  intro t xhtml o k ho hk
  have hkept : k ∈ keptKeys o := by
    rw [keptKeys, List.mem_filter]
    exact ⟨(mem_objectKeys k o).2 (mem_keys_of_lookup o k _ hk), by simp [hk]⟩
  have htext : attributeText o xhtml k = if xhtml then k ++ "=\"" ++ k ++ "\"" else k := by
    simp [attributeText, hk]
  refine ⟨⟨keptKeys o, ?_, hkept⟩, ?_, ⟨_, attributeStrings_eq t xhtml, ?_⟩⟩
  · rw [arrayFilter_keepAttribute, ho]; rfl
  · rw [renderAttribute_some t xhtml o k ho, htext]
  · rw [ho, Option.getD_some, ← htext]
    exact List.mem_map_of_mem _ hkept

/-- Witness of C6: the key `disabled` of `{class: 'a', disabled: true}`, in
xhtml mode. -/
theorem true_attribute_string_witness :
    (createHtmlTagObject "input" (some [("class", .str "a"), ("disabled", .bool true)])
        none).attributes = some [("class", .str "a"), ("disabled", .bool true)] ∧
    List.lookup "disabled" ([("class", .str "a"), ("disabled", .bool true)] : Attributes)
      = some (.bool true) ∧
    renderAttribute
        (createHtmlTagObject "input" (some [("class", .str "a"), ("disabled", .bool true)])
          none)
        true "disabled"
      = .ok "disabled=\"disabled\"" :=
  ⟨rfl, rfl,
    (true_attribute_string.1
      (createHtmlTagObject "input" (some [("class", .str "a"), ("disabled", .bool true)]) none)
      true [("class", .str "a"), ("disabled", .bool true)] "disabled" rfl rfl).2.1⟩

/-- C7: for a tag object whose attribute mapping gives the key `k` a string
value `v`, the filter keeps `k`, and the attribute string the serializer emits
for `k` is `k="v"` in both modes, with `v` copied as it is; that string is in
the array of attribute strings. An empty value renders as `k=""`, and a value
that holds `"`, `<`, `>` and `&` is copied without escaping. -/
theorem string_attribute_string :
    (∀ (t : HtmlTagObject) (xhtml : Bool) (o : Attributes) (k v : String),
      t.attributes = some o → o.lookup k = some (.str v) →
      (∃ kept, arrayFilter (keepAttribute t) (objectKeys (t.attributes.getD [])) = .ok kept ∧
        k ∈ kept) ∧
      renderAttribute t xhtml k = .ok (k ++ "=\"" ++ v ++ "\"") ∧
      ∃ strs, attributeStrings t xhtml = .ok strs ∧ (k ++ "=\"" ++ v ++ "\"") ∈ strs) ∧
    (∀ xhtml, htmlTagObjectToString
        (createHtmlTagObject "a" (some [("title", .str "")]) none) xhtml none
      = .ok "<a title=\"\"></a>") ∧
    (∀ xhtml, htmlTagObjectToString
        (createHtmlTagObject "a" (some [("title", .str "x\"<y>&z")]) none) xhtml none
      = .ok "<a title=\"x\"<y>&z\"></a>") := by
  refine ⟨?_, by decide, by decide⟩
  intro t xhtml o k v ho hk
  have hkept : k ∈ keptKeys o := by
    rw [keptKeys, List.mem_filter]
    exact ⟨(mem_objectKeys k o).2 (mem_keys_of_lookup o k _ hk), by simp [hk]⟩
  have htext : attributeText o xhtml k = k ++ "=\"" ++ v ++ "\"" := by
    simp [attributeText, hk, valueToString]
  refine ⟨⟨keptKeys o, ?_, hkept⟩, ?_, ⟨_, attributeStrings_eq t xhtml, ?_⟩⟩
  · rw [arrayFilter_keepAttribute, ho]; rfl
  · rw [renderAttribute_some t xhtml o k ho, htext]
  · rw [ho, Option.getD_some, ← htext]
    exact List.mem_map_of_mem _ hkept

/-- Witness of C7: the key `href` of `{href: 'a"b'}`, in xhtml mode. -/
theorem string_attribute_string_witness :
    (createHtmlTagObject "a" (some [("href", .str "a\"b")]) none).attributes
      = some [("href", .str "a\"b")] ∧
    List.lookup "href" ([("href", .str "a\"b")] : Attributes) = some (.str "a\"b") ∧
    renderAttribute (createHtmlTagObject "a" (some [("href", .str "a\"b")]) none) true "href"
      = .ok "href=\"a\"b\"" :=
  ⟨rfl, rfl,
    (string_attribute_string.1
      (createHtmlTagObject "a" (some [("href", .str "a\"b")]) none)
      true [("href", .str "a\"b")] "href" "a\"b" rfl rfl).2.1⟩

/-- C8: with a preprocessor `p`, the serializer returns what it returns,
without a preprocessor, for the tag object `p t`. -/
theorem preprocessor_supersedes (t : HtmlTagObject) (xhtml : Bool)
    (p : HtmlTagObject → HtmlTagObject) :
    htmlTagObjectToString t xhtml (some p) = htmlTagObjectToString (p t) xhtml none := by
  rfl

/-- C9: for an `HtmlTagArray` whose elements are strings, `toString` is the
concatenation of the elements in index order, with nothing between them and
nothing after them. The collection `['<br>', '<hr>']` gives `<br><hr>`. -/
theorem HtmlTagArray_toString_strings :
    (∀ ss : List String,
      HtmlTagArray.toString (ss.map JsValue.string) = String.join ss ∧
      (HtmlTagArray.toString (ss.map JsValue.string)).data = (ss.map String.data).flatten) ∧
    HtmlTagArray.toString [JsValue.string "<br>", JsValue.string "<hr>"] = "<br><hr>" := by
  refine ⟨fun ss => ⟨arrayJoin_empty_sep ss, ?_⟩, by decide⟩
  rw [HtmlTagArray.toString, arrayJoin_empty_sep, String.data_join]

/-- C10: the serializer returns a string and throws nothing, for every tag
object (tag name present, empty or missing; attribute mapping missing, empty
or with any string and boolean values; inner content present or missing;
void or not), either xhtml flag, and a preprocessor that is absent or a
function returning a tag object. -/
theorem htmlTagObjectToString_total (t : HtmlTagObject) (xhtml : Bool)
    (p : Option (HtmlTagObject → HtmlTagObject)) :
    ∃ s : String, htmlTagObjectToString t xhtml p = .ok s := by
  cases p with
  | none => exact ⟨_, htmlTagObjectToString_eq t xhtml⟩
  | some f => exact ⟨_, htmlTagObjectToString_eq (f t) xhtml⟩

end HtmlTags

namespace HtmlTags

/-! ## The serializer leaves the tag object as it was -/

theorem arrayFilterOnHeap_keepAttribute (cell : HtmlTagObject) (l : List String) :
    arrayFilterOnHeap keepAttributeOnHeap l cell
      = match arrayFilter (keepAttribute cell) l with
        | .error e => .error e
        | .ok kept => .ok (kept, cell) := by
  induction l with
  | nil => rfl
  | cons k rest ih =>
    simp only [arrayFilterOnHeap, arrayFilter, keepAttributeOnHeap, keepAttribute]
    cases readAttribute cell.attributes k with
    | error e => rfl
    | ok v =>
      simp only [ih]
      cases arrayFilter (keepAttribute cell) rest <;> rfl

theorem arrayMapOnHeap_renderAttribute (cell : HtmlTagObject) (xhtml : Bool)
    (l : List String) :
    arrayMapOnHeap (renderAttributeOnHeap xhtml) l cell
      = match arrayMap (renderAttribute cell xhtml) l with
        | .error e => .error e
        | .ok strs => .ok (strs, cell) := by
  induction l with
  | nil => rfl
  | cons k rest ih =>
    simp only [arrayMapOnHeap, arrayMap, renderAttributeOnHeap, renderAttribute]
    cases readAttribute cell.attributes k with
    | error e => rfl
    | ok v =>
      by_cases hv : v = some (.bool true)
      · simp only [hv, if_true, ih]
        cases arrayMap (renderAttribute cell xhtml) rest <;> rfl
      · simp only [hv, if_false, ih]
        cases arrayMap (renderAttribute cell xhtml) rest <;> rfl

theorem htmlTagObjectToStringOnHeap_eq (cell : HtmlTagObject) (xhtml : Bool) :
    htmlTagObjectToStringOnHeap cell xhtml
      = match htmlTagObjectToString cell xhtml none with
        | .error e => .error e
        | .ok s => .ok (s, cell) := by
  simp only [htmlTagObjectToStringOnHeap, arrayFilterOnHeap_keepAttribute,
    htmlTagObjectToString, attributeStrings]
  cases arrayFilter (keepAttribute cell) (objectKeys (cell.attributes.getD [])) with
  | error e => rfl
  | ok kept =>
    simp only [arrayMapOnHeap_renderAttribute]
    cases arrayMap (renderAttribute cell xhtml) kept <;> rfl

/-- C11: a call without a preprocessor is a read that changes nothing: it
returns a string and leaves the tag object (tagName, attributes, innerHTML,
voidTag) as it was before the call, and two calls one after the other with the
same inputs return the same string and still leave the tag object as it
was. -/
theorem htmlTagObjectToString_reads_only (t : HtmlTagObject) (xhtml : Bool) :
    ∃ s : String,
      htmlTagObjectToString t xhtml none = .ok s ∧
      htmlTagObjectToStringOnHeap t xhtml = .ok (s, t) ∧
      htmlTagObjectToStringTwice t xhtml = .ok (s, s, t) := by
  obtain ⟨s, hs⟩ : ∃ s : String, htmlTagObjectToString t xhtml none = .ok s :=
    ⟨_, htmlTagObjectToString_eq t xhtml⟩
  have h1 : htmlTagObjectToStringOnHeap t xhtml = .ok (s, t) := by
    rw [htmlTagObjectToStringOnHeap_eq, hs]
  refine ⟨s, hs, h1, ?_⟩
  simp only [htmlTagObjectToStringTwice, h1]

/-- C12: `createHtmlTagObject` returns, for every tag name, attribute mapping
and inner content, a tag object whose `tagName`, `attributes` and `innerHTML`
are the arguments given; without the `attributes` argument the result holds
the empty mapping, and without `innerHTML` it holds none. -/
theorem createHtmlTagObject_fields :
    (∀ (tagName : String) (o : Attributes) (innerHTML : Option String),
      (createHtmlTagObject tagName (some o) innerHTML).tagName = some tagName ∧
      (createHtmlTagObject tagName (some o) innerHTML).attributes = some o ∧
      (createHtmlTagObject tagName (some o) innerHTML).innerHTML = innerHTML) ∧
    (∀ (tagName : String) (innerHTML : Option String),
      (createHtmlTagObject tagName none innerHTML).tagName = some tagName ∧
      (createHtmlTagObject tagName none innerHTML).attributes = some [] ∧
      (createHtmlTagObject tagName none innerHTML).innerHTML = innerHTML) ∧
    (∀ (tagName : String) (attributes : Option Attributes),
      (createHtmlTagObject tagName attributes none).innerHTML = none) ∧
    createHtmlTagObject "" (some [("", .str ""), ("A b", .bool false)]) (some "")
      = ⟨some "", false, some [("", .str ""), ("A b", .bool false)], some ""⟩ := by
  refine ⟨fun _ _ _ => ⟨rfl, rfl, rfl⟩, fun _ _ => ⟨rfl, rfl, rfl⟩, fun _ _ => rfl, by decide⟩

end HtmlTags

namespace HtmlTags

/-! ## The order of the attribute strings -/

theorem perm_insertIndexKey (e : Nat × String) (l : List (Nat × String)) :
    (insertIndexKey e l).Perm (e :: l) := by
  induction l with
  | nil => exact List.Perm.refl _
  | cons f rest ih =>
    by_cases h : e.1 ≤ f.1
    · simp only [insertIndexKey, h, if_true]
      exact List.Perm.refl _
    · simp only [insertIndexKey, h, if_false]
      exact (List.Perm.cons f ih).trans (List.Perm.swap e f rest)

theorem perm_sortIndexKeys (l : List (Nat × String)) : (sortIndexKeys l).Perm l := by
  induction l with
  | nil => exact List.Perm.refl _
  | cons e rest ih =>
    exact (perm_insertIndexKey e (sortIndexKeys rest)).trans (List.Perm.cons e ih)

theorem map_snd_indexKeys (names : List String) :
    (indexKeys names).map Prod.snd = names.filter fun k => (arrayIndex? k).isSome := by
  induction names with
  | nil => rfl
  | cons k rest ih =>
    simp only [indexKeys] at ih ⊢
    cases hi : arrayIndex? k with
    | none => simp [List.filterMap_cons, List.filter_cons, hi, ih]
    | some n => simp [List.filterMap_cons, List.filter_cons, hi, ih]

theorem attributeText_of_mem (o : Attributes) (h : WellFormed o) (x : Bool)
    (e : String × AttrValue) (he : e ∈ o) (hv : e.2 ≠ .bool false) :
    attributeText o x e.1 = entryText x e := by
  obtain ⟨k, v⟩ := e
  simp only [attributeText, lookup_of_mem o h (k, v) he, entryText]
  cases v with
  | str s => simp [valueToString]
  | bool b =>
    cases b with
    | true => simp
    | false => exact absurd rfl hv

theorem mem_removeFalse (o : Attributes) (e : String × AttrValue) (he : e ∈ removeFalse o) :
    e ∈ o ∧ e.2 ≠ .bool false := by
  have h := List.mem_filter.1 he
  exact ⟨h.1, by simpa using h.2⟩

theorem map_fst_filter (q : String → Bool) (o : Attributes) :
    (o.map Prod.fst).filter q = (o.filter fun e => q e.1).map Prod.fst := by
  rw [List.filter_map]; rfl

theorem map_entry_of_keys (o l : Attributes) (h : WellFormed o) (hl : ∀ e ∈ l, e ∈ o) :
    (l.map Prod.fst).map (fun k => (k, (o.lookup k).getD (.bool false))) = l := by
  rw [List.map_map]
  conv => rhs; rw [← List.map_id l]
  apply List.map_congr_left
  intro e he
  simp only [Function.comp, lookup_of_mem o h e (hl e he), Option.getD_some, id]

/-- The attribute strings in terms of the entries: the entries of value other
than `false`, those with an array index as key first, ascending by index, then
the others in insertion order. -/
theorem attributeStrings_order (t : HtmlTagObject) (xhtml : Bool) (o : Attributes)
    (ho : t.attributes = some o) (h : WellFormed o) :
    ∃ idx : List (String × AttrValue),
      idx.Perm ((removeFalse o).filter fun e => (arrayIndex? e.1).isSome) ∧
      idx.Pairwise (fun a b =>
        ∀ m n, arrayIndex? a.1 = some m → arrayIndex? b.1 = some n → m ≤ n) ∧
      attributeStrings t xhtml
        = .ok ((idx ++ (removeFalse o).filter fun e => (arrayIndex? e.1).isNone).map
            (entryText xhtml)) := by
  let g : String → String × AttrValue := fun k => (k, (o.lookup k).getD (.bool false))
  have hsub : ∀ (q : String × AttrValue → Bool), ∀ e ∈ (removeFalse o).filter q, e ∈ o :=
    fun q e he => (mem_removeFalse o e (List.mem_filter.1 he).1).1
  refine ⟨(sortIndexKeys (indexKeys ((removeFalse o).map Prod.fst))).map fun p => g p.2,
    ?_, ?_, ?_⟩
  · have h1 := (perm_sortIndexKeys (indexKeys ((removeFalse o).map Prod.fst))).map
      fun p => g p.2
    have h2 : (indexKeys ((removeFalse o).map Prod.fst)).map (fun p => g p.2)
        = (removeFalse o).filter fun e => (arrayIndex? e.1).isSome := by
      have : (fun p : Nat × String => g p.2) = g ∘ Prod.snd := rfl
      rw [this, ← List.map_map, map_snd_indexKeys, map_fst_filter]
      exact map_entry_of_keys o _ h (hsub _)
    rw [h2] at h1
    exact h1
  · rw [List.pairwise_map]
    refine (pairwise_sortIndexKeys _).imp_of_mem ?_
    intro a b ha hb hab m n hm hn
    have ha2 := ((mem_indexKeys a _).1 ((mem_sortIndexKeys a _).1 ha)).2
    have hb2 := ((mem_indexKeys b _).1 ((mem_sortIndexKeys b _).1 hb)).2
    have hm2 : arrayIndex? a.2 = some m := hm
    have hn2 : arrayIndex? b.2 = some n := hn
    rw [ha2] at hm2
    rw [hb2] at hn2
    cases hm2
    cases hn2
    exact hab
  · rw [attributeStrings_eq, ho, Option.getD_some, ← objectKeys_removeFalse o h]
    congr 1
    have htext : ∀ k ∈ objectKeys (removeFalse o),
        attributeText o xhtml k = entryText xhtml (g k) := by
      intro k hk
      obtain ⟨e, he, hek⟩ := List.mem_map.1 ((mem_objectKeys k _).1 hk)
      have heo := mem_removeFalse o e he
      subst hek
      have hg : g e.1 = e := by
        simp only [g, lookup_of_mem o h e heo.1, Option.getD_some]
      rw [hg]
      exact attributeText_of_mem o h xhtml e heo.1 heo.2
    rw [List.map_congr_left htext]
    have hcomp : (fun k => entryText xhtml (g k)) = entryText xhtml ∘ g := rfl
    rw [hcomp, ← List.map_map]
    congr 1
    simp only [objectKeys, List.map_append, List.map_map]
    congr 1
    rw [map_fst_filter]
    exact map_entry_of_keys o _ h (hsub _)

/-- C13, the claim as stated fails: for the mapping `{b: 'x', 1: 'y'}`, whose
keys were inserted in the order `b`, `1`, the attribute strings are `1="y"`,
`b="x"`: the key `1` is an array index and `Object.keys` lists it first. -/
theorem insertion_order_counterexample :
    WellFormed [("b", .str "x"), ("1", .str "y")] ∧
    attributeStrings (createHtmlTagObject "div" (some [("b", .str "x"), ("1", .str "y")]) none)
        false
      = .ok ["1=\"y\"", "b=\"x\""] ∧
    (removeFalse [("b", .str "x"), ("1", .str "y")]).map (entryText false)
      = ["b=\"x\"", "1=\"y\""] ∧
    attributeStrings (createHtmlTagObject "div" (some [("b", .str "x"), ("1", .str "y")]) none)
        false
      ≠ .ok ((removeFalse [("b", .str "x"), ("1", .str "y")]).map (entryText false)) ∧
    htmlTagObjectToString
        (createHtmlTagObject "div" (some [("b", .str "x"), ("1", .str "y")]) none) false none
      = .ok "<div 1=\"y\" b=\"x\"></div>" := by
  decide

/-- C13, amended: the attribute strings are the strings of the entries whose
value is not `false`, one string for each, in the order of `Object.keys`:
first the entries whose key is an array index, ascending by index, then the
other entries in insertion order. When no key is an array index the attribute
strings are in insertion order. -/
theorem attribute_strings_in_key_order :
    (∀ (t : HtmlTagObject) (xhtml : Bool) (o : Attributes),
      t.attributes = some o → WellFormed o →
      ∃ idx : List (String × AttrValue),
        idx.Perm ((removeFalse o).filter fun e => (arrayIndex? e.1).isSome) ∧
        idx.Pairwise (fun a b =>
          ∀ m n, arrayIndex? a.1 = some m → arrayIndex? b.1 = some n → m ≤ n) ∧
        attributeStrings t xhtml
          = .ok ((idx ++ (removeFalse o).filter fun e => (arrayIndex? e.1).isNone).map
              (entryText xhtml))) ∧
    (∀ (t : HtmlTagObject) (xhtml : Bool) (o : Attributes),
      t.attributes = some o → WellFormed o → (∀ e ∈ o, arrayIndex? e.1 = none) →
      attributeStrings t xhtml = .ok ((removeFalse o).map (entryText xhtml))) := by
  refine ⟨attributeStrings_order, ?_⟩
  intro t xhtml o ho h hnone
  obtain ⟨idx, hperm, _, hstr⟩ := attributeStrings_order t xhtml o ho h
  have hno : ∀ e ∈ removeFalse o, arrayIndex? e.1 = none :=
    fun e he => hnone e (mem_removeFalse o e he).1
  have h1 : ((removeFalse o).filter fun e => (arrayIndex? e.1).isSome) = [] := by
    rw [List.filter_eq_nil_iff]
    intro e he
    simp [hno e he]
  have h2 : ((removeFalse o).filter fun e => (arrayIndex? e.1).isNone) = removeFalse o := by
    rw [List.filter_eq_self]
    intro e he
    simp [hno e he]
  rw [h1] at hperm
  rw [hstr, hperm.eq_nil, h2, List.nil_append]

/-- Witness of C13: `{class: 'a', hidden: false, id: 'b'}`, where no key is an
array index, gives `class="a"`, `id="b"`; `{b: 'x', 1: 'y'}` gives the string
of the index key first. -/
theorem attribute_strings_in_key_order_witness :
    (createHtmlTagObject "p"
        (some [("class", .str "a"), ("hidden", .bool false), ("id", .str "b")]) none).attributes
      = some [("class", .str "a"), ("hidden", .bool false), ("id", .str "b")] ∧
    WellFormed [("class", .str "a"), ("hidden", .bool false), ("id", .str "b")] ∧
    (∀ e ∈ ([("class", .str "a"), ("hidden", .bool false), ("id", .str "b")] : Attributes),
      arrayIndex? e.1 = none) ∧
    attributeStrings
        (createHtmlTagObject "p"
          (some [("class", .str "a"), ("hidden", .bool false), ("id", .str "b")]) none) true
      = .ok ((removeFalse [("class", .str "a"), ("hidden", .bool false),
          ("id", .str "b")]).map (entryText true)) ∧
    (removeFalse [("class", .str "a"), ("hidden", .bool false), ("id", .str "b")]).map
        (entryText true)
      = ["class=\"a\"", "id=\"b\""] ∧
    ∃ idx : List (String × AttrValue),
      idx.Perm ((removeFalse [("b", .str "x"), ("1", .str "y")]).filter
        fun e => (arrayIndex? e.1).isSome) ∧
      idx.Pairwise (fun a b =>
        ∀ m n, arrayIndex? a.1 = some m → arrayIndex? b.1 = some n → m ≤ n) ∧
      attributeStrings (createHtmlTagObject "div" (some [("b", .str "x"), ("1", .str "y")])
          none) false
        = .ok ((idx ++ (removeFalse [("b", .str "x"), ("1", .str "y")]).filter
            fun e => (arrayIndex? e.1).isNone).map (entryText false)) :=
  ⟨rfl, by decide, by decide,
    attribute_strings_in_key_order.2 _ true _ rfl (by decide) (by decide), by decide,
    attribute_strings_in_key_order.1
      (createHtmlTagObject "div" (some [("b", .str "x"), ("1", .str "y")]) none) false
      [("b", .str "x"), ("1", .str "y")] rfl (by decide)⟩

end HtmlTags

namespace HtmlTags

/-! ## Missing names, missing inner content, the xhtml flag -/

/-- C14, the claim as stated fails: for the tag object `{tagName: '', voidTag:
true, attributes: {}}` in xhtml mode the output is `</>`, which does not start
with `<>`. -/
theorem empty_name_counterexample :
    htmlTagObjectToString ⟨some "", true, some [], none⟩ true none = .ok "</>" ∧
    htmlTagObjectToString ⟨none, true, none, none⟩ true none = .ok "</>" ∧
    ∀ rest : String, "</>" ≠ "<>" ++ rest := by
  refine ⟨by decide, by decide, ?_⟩
  intro rest h
  have hd := congrArg String.data h
  simp [String.data_append] at hd

/-- C14, amended: for a tag object whose tagName is missing or empty and which
has no attributes the serializer does not fail; the output is `<`, then `/`
only for a void tag object in xhtml mode, then `>`, the inner content, and for
a tag object that is not void the closing tag (`</>` for the empty name,
`</undefined>` for the missing one). So unless the tag object is void and
xhtml is true, the opening tag is `<>` and the output starts with `<>`. -/
theorem empty_name_opening_tag :
    (∀ (tagName : Option String) (voidTag : Bool) (attributes : Option Attributes)
        (innerHTML : Option String) (xhtml : Bool),
      tagName = none ∨ tagName = some "" → attributes = none ∨ attributes = some [] →
      htmlTagObjectToString ⟨tagName, voidTag, attributes, innerHTML⟩ xhtml none
        = .ok ("<" ++ (if voidTag && xhtml then "/" else "") ++ ">" ++ innerHTML.getD ""
            ++ (if voidTag then "" else "</" ++ nameToString tagName ++ ">"))) ∧
    (∀ (tagName : Option String) (voidTag : Bool) (attributes : Option Attributes)
        (innerHTML : Option String) (xhtml : Bool),
      tagName = none ∨ tagName = some "" → attributes = none ∨ attributes = some [] →
      (voidTag && xhtml) = false →
      ∃ rest : String,
        htmlTagObjectToString ⟨tagName, voidTag, attributes, innerHTML⟩ xhtml none
          = .ok ("<>" ++ rest)) := by
  have hjoin : String.join [] = "" := rfl
  have main : ∀ (tagName : Option String) (voidTag : Bool) (attributes : Option Attributes)
      (innerHTML : Option String) (xhtml : Bool),
      tagName = none ∨ tagName = some "" → attributes = none ∨ attributes = some [] →
      htmlTagObjectToString ⟨tagName, voidTag, attributes, innerHTML⟩ xhtml none
        = .ok ("<" ++ (if voidTag && xhtml then "/" else "") ++ ">" ++ innerHTML.getD ""
            ++ (if voidTag then "" else "</" ++ nameToString tagName ++ ">")) := by
    intro tagName voidTag attributes innerHTML xhtml hn ha
    rw [htmlTagObjectToString_eq, composeTag_eq]
    have hk : keptKeys (attributes.getD []) = [] := by
      rcases ha with ha | ha <;> subst ha <;> rfl
    rcases hn with hn | hn <;> subst hn <;>
      simp [hk, hjoin, String.append_assoc]
  refine ⟨main, ?_⟩
  intro tagName voidTag attributes innerHTML xhtml hn ha hvx
  refine ⟨innerHTML.getD "" ++ (if voidTag then "" else "</" ++ nameToString tagName ++ ">"),
    ?_⟩
  rw [main tagName voidTag attributes innerHTML xhtml hn ha, hvx]
  simp [String.append_assoc]

/-- Witness of C14: `createHtmlTagObject('')` renders as `<></>`, and a tag
object without a tagName as `<></undefined>`. -/
theorem empty_name_opening_tag_witness :
    ((some "" : Option String) = none ∨ (some "" : Option String) = some "") ∧
    ((some [] : Option Attributes) = none ∨ (some [] : Option Attributes) = some []) ∧
    htmlTagObjectToString (createHtmlTagObject "" none none) false none = .ok "<></>" ∧
    htmlTagObjectToString ⟨none, false, none, none⟩ true none = .ok "<></undefined>" ∧
    ∃ rest : String,
      htmlTagObjectToString ⟨some "", false, some [], some "x"⟩ true none
        = .ok ("<>" ++ rest) :=
  ⟨Or.inr rfl, Or.inr rfl,
    empty_name_opening_tag.1 (some "") false (some []) none false (Or.inr rfl) (Or.inr rfl),
    empty_name_opening_tag.1 none false none none true (Or.inl rfl) (Or.inl rfl),
    empty_name_opening_tag.2 (some "") false (some []) (some "x") true (Or.inr rfl)
      (Or.inr rfl) rfl⟩

/-- C15: an absent `innerHTML` renders as the empty string: for every tag
name, attribute mapping (or none) and xhtml flag, the tag object created
without `innerHTML` and the one created with `''` render alike. -/
theorem absent_innerHTML_as_empty (tagName : String) (attributes : Option Attributes)
    (xhtml : Bool) :
    htmlTagObjectToString (createHtmlTagObject tagName attributes none) xhtml none
      = htmlTagObjectToString (createHtmlTagObject tagName attributes (some "")) xhtml none := by
  rw [htmlTagObjectToString_eq, htmlTagObjectToString_eq, composeTag_eq, composeTag_eq]
  rfl

end HtmlTags

namespace HtmlTags

theorem mem_of_lookup (o : Attributes) (k : String) (v : AttrValue)
    (h : o.lookup k = some v) : (k, v) ∈ o := by
  induction o with
  | nil => simp [List.lookup] at h
  | cons e rest ih =>
    obtain ⟨a, w⟩ := e
    by_cases hak : k = a
    · subst hak
      have hw : w = v := by simpa [List.lookup] using h
      simp [hw]
    · have hbeq : (k == a) = false := by simpa using hak
      have h2 : rest.lookup k = some v := by simpa [List.lookup, hbeq] using h
      exact List.mem_cons_of_mem _ (ih h2)

theorem attributeText_xhtml (o : Attributes) (k : String)
    (h : ∀ e ∈ o, e.2 ≠ .bool true) :
    attributeText o true k = attributeText o false k := by
  have hk : o.lookup k ≠ some (.bool true) := fun hl => h _ (mem_of_lookup o k _ hl) rfl
  simp only [attributeText, hk, if_false]

/-- C16: the xhtml flag shows only on void tags and on attributes of value
`true`: for every tag object that is not void and whose attribute mapping
(if any) holds no value `true`, the serializer returns the same string in
xhtml mode and without it. -/
theorem xhtml_flag_irrelevant (t : HtmlTagObject) (hv : t.voidTag = false)
    (ht : ∀ o, t.attributes = some o → ∀ e ∈ o, e.2 ≠ .bool true) :
    htmlTagObjectToString t true none = htmlTagObjectToString t false none := by
  rw [htmlTagObjectToString_eq, htmlTagObjectToString_eq, composeTag_eq, composeTag_eq, hv]
  have hmap : (keptKeys (t.attributes.getD [])).map (attributeText (t.attributes.getD []) true)
      = (keptKeys (t.attributes.getD [])).map (attributeText (t.attributes.getD []) false) := by
    apply List.map_congr_left
    intro k _
    cases ha : t.attributes with
    | none => exact attributeText_xhtml [] k (fun e he => by simp at he)
    | some o => exact attributeText_xhtml o k (ht o ha)
  rw [hmap]
  rfl

/-- Witness of C16: `createHtmlTagObject('a', {href: '#', hidden: false}, 'x')`
renders as `<a href="#">x</a>` in both modes. -/
theorem xhtml_flag_irrelevant_witness :
    (createHtmlTagObject "a" (some [("href", .str "#"), ("hidden", .bool false)])
        (some "x")).voidTag = false ∧
    (∀ o, (createHtmlTagObject "a" (some [("href", .str "#"), ("hidden", .bool false)])
        (some "x")).attributes = some o → ∀ e ∈ o, e.2 ≠ .bool true) ∧
    htmlTagObjectToString
        (createHtmlTagObject "a" (some [("href", .str "#"), ("hidden", .bool false)])
          (some "x")) true none
      = htmlTagObjectToString
          (createHtmlTagObject "a" (some [("href", .str "#"), ("hidden", .bool false)])
            (some "x")) false none ∧
    htmlTagObjectToString
        (createHtmlTagObject "a" (some [("href", .str "#"), ("hidden", .bool false)])
          (some "x")) true none
      = .ok "<a href=\"#\">x</a>" :=
  have hno : ∀ o, (createHtmlTagObject "a"
      (some [("href", .str "#"), ("hidden", .bool false)]) (some "x")).attributes = some o →
      ∀ e ∈ o, e.2 ≠ .bool true := by
    intro o ho
    cases ho
    decide
  ⟨by decide, hno, xhtml_flag_irrelevant _ (by decide) hno, by decide⟩

theorem foldl_join_empty_sep (init : String) (l : List JsValue) :
    l.foldl (fun r e => r ++ "" ++ joinText e) init
      = init ++ String.join (l.map joinText) := by
  induction l generalizing init with
  | nil => apply String.ext; simp
  | cons a rest ih =>
    rw [List.foldl_cons, ih]
    apply String.ext
    simp [String.data_append, String.data_join]

theorem arrayJoin_empty_sep_all (l : List JsValue) :
    arrayJoin "" l = String.join (l.map joinText) := by
  cases l with
  | nil => rfl
  | cons a rest =>
    simp only [arrayJoin, foldl_join_empty_sep]
    apply String.ext
    simp [String.data_append, String.data_join]

theorem joinedText_append (a b : HtmlTagArray) :
    HtmlTagArray.toString (a ++ b) = HtmlTagArray.toString a ++ HtmlTagArray.toString b := by
  simp only [HtmlTagArray.toString, arrayJoin_empty_sep_all]
  apply String.ext
  simp [String.data_append, String.data_join]

/-- C17: `toString` of `HtmlTagArray` takes the concatenation of collections to
the concatenation of strings: the empty collection gives the empty string,
`toString` of `a` followed by `b` is `toString(a)` followed by `toString(b)`
(for all collections, so for those of strings), and pushing a string `s`
appends `s` to the text. -/
theorem HtmlTagArray_toString_append :
    HtmlTagArray.toString [] = "" ∧
    (∀ a b : HtmlTagArray,
      HtmlTagArray.toString (a ++ b) = HtmlTagArray.toString a ++ HtmlTagArray.toString b) ∧
    (∀ xs ys : List String,
      HtmlTagArray.toString ((xs ++ ys).map JsValue.string)
        = HtmlTagArray.toString (xs.map JsValue.string)
          ++ HtmlTagArray.toString (ys.map JsValue.string)) ∧
    (∀ (a : HtmlTagArray) (s : String),
      HtmlTagArray.toString (a ++ [JsValue.string s]) = HtmlTagArray.toString a ++ s) ∧
    HtmlTagArray.toString ([JsValue.string "<br>"] ++ [JsValue.string "<hr>"]) = "<br><hr>" := by
  refine ⟨rfl, joinedText_append, ?_, ?_, by decide⟩
  · intro xs ys
    rw [List.map_append, joinedText_append]
  · intro a s
    rw [joinedText_append]
    rfl

/-- C18: the serializer is not injective, as attribute values are copied
without escaping: the tag objects `div` with `{a: 'x" b="y'}` and with
`{a: 'x', b: 'y'}` have the same tagName, voidTag and innerHTML and different
attribute mappings, and both render as `<div a="x" b="y"></div>`, in either
mode. -/
theorem htmlTagObjectToString_not_injective :
    ∃ t1 t2 : HtmlTagObject,
      t1.tagName = t2.tagName ∧ t1.voidTag = t2.voidTag ∧ t1.innerHTML = t2.innerHTML ∧
      t1.attributes ≠ t2.attributes ∧
      t1 = createHtmlTagObject "div" (some [("a", .str "x\" b=\"y")]) none ∧
      t2 = createHtmlTagObject "div" (some [("a", .str "x"), ("b", .str "y")]) none ∧
      ∀ xhtml : Bool,
        htmlTagObjectToString t1 xhtml none = htmlTagObjectToString t2 xhtml none ∧
        htmlTagObjectToString t1 xhtml none = .ok "<div a=\"x\" b=\"y\"></div>" := by
  refine ⟨createHtmlTagObject "div" (some [("a", .str "x\" b=\"y")]) none,
    createHtmlTagObject "div" (some [("a", .str "x"), ("b", .str "y")]) none,
    rfl, rfl, rfl, by decide, rfl, rfl, by decide⟩

end HtmlTags
